import Mathlib

/-!
Verification of the JFS CXX fuzzing backend core: the sort-conformance
worklist pass (`SortConformanceCheckPass.cpp`) and the solver orchestrator
(`CXXFuzzingSolver.cpp`), embedded shallowly.  Terms of the shared Z3 AST
are modelled as nodes of a finite graph (`TermGraph`); queries are lists of
root constraint node ids; the two external invocation managers (Clang,
LibFuzzer) are modelled by their observable results, supplied as inputs.
-/

namespace JFS

/-- Sorts, as the backend distinguishes them: `Z3_BOOL_SORT`, `Z3_BV_SORT`
with a width, and every other sort kind carrying its printed form. -/
inductive SortKind where
  | bool : SortKind
  | bitVector (width : Nat) : SortKind
  | other (printed : String) : SortKind
deriving DecidableEq, Repr

/-- Diagnostics the backend's sort predicate can emit on its warning
stream. -/
inductive Diag where
  | bvWidthNotSupported (width : Nat) : Diag
  | sortNotSupported (printed : String) : Diag
deriving DecidableEq, Repr

/-- A finite term graph: node ids below `numNodes` may have children
(`kids n` is the child list of node `n`, in child-index order, empty when
the node is not an application); every node has a sort.  `kids_bound`
makes the graph finite.  Structural sharing is the point: the same child
id may appear under several parents. -/
structure TermGraph where
  numNodes : Nat
  sortOf : Nat → SortKind
  kids : Nat → List Nat
  kids_bound : ∀ n, numNodes ≤ n → kids n = []

/-- A query: the ordered list of top-level constraint terms (node ids). -/
structure Query where
  constraints : List Nat
deriving DecidableEq

/-- The worklist loop of `SortConformanceCheckPass::run` (lines 34-57 of
`SortConformanceCheckPass.cpp`).  Pops the front of the worklist; skips
nodes already in `visited`; otherwise evaluates the predicate on the
node's sort — on failure it stops at once with `predicateHeld = false`,
on success it marks the node visited and pushes the children onto the
front of the list (push order reverses them, as in the C++ `push_front`
loop).  Returns `(predicateHeld, evaluation trace, final visited set)`;
the trace records each node whose sort the predicate was evaluated on, in
evaluation order. -/
def sccLoop (g : TermGraph) (p : SortKind → Bool) (wl : List Nat)
    (visited : Finset Nat) : Bool × List Nat × Finset Nat :=
  match wl with
  | [] => (true, [], visited)
  | node :: rest =>
    if node ∈ visited then
      sccLoop g p rest visited
    else if p (g.sortOf node) then
      let r := sccLoop g p ((g.kids node).reverse ++ rest) (insert node visited)
      (r.1, node :: r.2.1, r.2.2)
    else
      (false, [node], visited)
termination_by ((Finset.range g.numNodes \ visited).card, wl.length)
decreasing_by
  · exact Prod.Lex.right _ (Nat.lt_succ_self _)
  · rcases Nat.lt_or_ge node g.numNodes with hlt | hge
    · apply Prod.Lex.left
      rw [Finset.sdiff_insert]
      exact Finset.card_erase_lt_of_mem
        (Finset.mem_sdiff.mpr ⟨Finset.mem_range.mpr hlt, by assumption⟩)
    · have hkids : g.kids node = [] := g.kids_bound node hge
      have : Finset.range g.numNodes \ insert node visited =
          Finset.range g.numNodes \ visited := by
        rw [Finset.sdiff_insert,
          Finset.erase_eq_of_not_mem
            (by simp [Finset.mem_sdiff, Finset.mem_range]; omega)]
      rw [this]
      apply Prod.Lex.right
      simp [hkids]

/-- What one call of `SortConformanceCheckPass::run` produces and leaves
behind: the graph and query as the pass leaves them (the C++ takes
`Query&` by reference and performs no write to it), the function's return
value (line 59 of the source: a literal `false`), the `predicateHeld`
field, and the trace of nodes the predicate was evaluated on. -/
structure RunResult where
  graph : TermGraph
  query : Query
  returnValue : Bool
  predicateHeld : Bool
  evals : List Nat

namespace SortConformanceCheckPass

/-- `SortConformanceCheckPass::run` (lines 24-60): seed the worklist by
`push_front`-ing each constraint (so the list holds the constraints
reversed), run the worklist loop, leave the outcome in `predicateHeld`,
and return `false`. -/
def run (g : TermGraph) (p : SortKind → Bool) (q : Query) : RunResult :=
  let r := sccLoop g p q.constraints.reverse ∅
  { graph := g, query := q, returnValue := false,
    predicateHeld := r.1, evals := r.2.1 }

/-- The `predicateAlwaysHeld()` accessor: reads the `predicateHeld`
field. -/
def predicateAlwaysHeld (r : RunResult) : Bool := r.predicateHeld

end SortConformanceCheckPass

/-- The nodes reachable from a start list of nodes by repeatedly following
child edges — the terms reachable from a query's top-level constraints. -/
inductive ReachFrom (g : TermGraph) (s : List Nat) : Nat → Prop where
  | base {t : Nat} : t ∈ s → ReachFrom g s t
  | step {t k : Nat} : ReachFrom g s t → k ∈ g.kids t → ReachFrom g s k

/-- Modelled from the spec: the `IF_VERB` verbosity gate of the context's
diagnostic streams (`jfs/Core/IfVerbose.h` is not among the visible
sources; the spec describes "a verbosity-gated stream on the context").
Diagnostics reach the stream only at positive verbosity. -/
def ifVerb (verbosity : Nat) (d : List Diag) : List Diag :=
  if 0 < verbosity then d else []

/-- The backend's default sort predicate, the lambda of
`CXXFuzzingSolverImpl::sortsAreSupported` (lines 90-115 of
`CXXFuzzingSolver.cpp`): Boolean is supported; a bit-vector is supported
iff its width is at most 64, else a warning naming the width is emitted;
any other sort is rejected with a warning naming its printed form.
Returns the boolean answer together with the diagnostics emitted. -/
def cxxSortPredicate (verbosity : Nat) (s : SortKind) : Bool × List Diag :=
  match s with
  | .bool => (true, [])
  | .bitVector w =>
    if w ≤ 64 then (true, [])
    else (false, ifVerb verbosity [Diag.bvWidthNotSupported w])
  | .other printed => (false, ifVerb verbosity [Diag.sortNotSupported printed])

/-- The two passes the orchestrator registers in the cancellable-pass
registry: the sort-conformance pass and the C++ program-builder pass. -/
inductive PassKind where
  | sortCheck : PassKind
  | programBuilder : PassKind
deriving DecidableEq, Repr

namespace CXXFuzzingSolverImpl

/-- `CXXFuzzingSolverImpl::sortsAreSupported` (lines 88-133): build the
conformance pass over the default predicate, insert it into the
cancellable-pass registry (under the lock), run it, erase it from the
registry (under the lock), and answer `predicateAlwaysHeld()`.  The
registry is threaded explicitly. -/
def sortsAreSupported (g : TermGraph) (verbosity : Nat) (q : Query)
    (registry : Finset PassKind) : Bool × Finset PassKind :=
  let registry1 := insert PassKind.sortCheck registry
  let r := SortConformanceCheckPass.run g
    (fun s => (cxxSortPredicate verbosity s).1) q
  let registry2 := registry1.erase PassKind.sortCheck
  (SortConformanceCheckPass.predicateAlwaysHeld r, registry2)

end CXXFuzzingSolverImpl

/-- The satisfiability verdicts of `SolverResponse`. -/
inductive SolverSat where
  | sat : SolverSat
  | unsat : SolverSat
  | unknown : SolverSat
deriving DecidableEq, Repr

/-- `LibFuzzerResponse::ResponseTy`, the Fuzz Execution Manager's
outcome. -/
inductive LibFuzzerOutcome where
  | targetFound : LibFuzzerOutcome
  | unknown : LibFuzzerOutcome
  | cancelled : LibFuzzerOutcome
deriving DecidableEq, Repr

/-- Modelled from the spec: `computeWidth()` of the free-variable buffer
assignment (`FuzzingCommon/BufferAssignment` is not among the visible
sources; the spec calls it "the aggregate bit width of the free-variable
buffer assignment").  The assignment is the list of the free variables'
bit widths; the aggregate width is their sum. -/
structure BufferAssignment where
  widths : List Nat

def BufferAssignment.computeWidth (b : BufferAssignment) : Nat :=
  b.widths.sum

/-- The solve-relevant inputs of one `fuzz` call that come from outside
the orchestrator: the caller's flags, the context verbosity, the
observable results of the two external managers, and the cancellation
schedule.  `cancelTime` is the index of the first cancellation-flag
observation at which the flag reads true (`none`: never); the `fuzz` body
reads the flag at observation indices 0, 1, 2 in order, so once set the
flag stays set. -/
structure FuzzInputs where
  produceModel : Bool
  verbosity : Nat
  cancelTime : Option Nat
  compileSuccess : Bool
  fuzzOutcome : LibFuzzerOutcome
  useCmpInOptions : Bool

/-- The cancellation flag's value at observation index `t` under schedule
`c`. -/
def flagAt (c : Option Nat) (t : Nat) : Bool :=
  match c with
  | none => false
  | some c0 => decide (c0 ≤ t)

/-- What one `fuzz` call did: the response it returned (`none` models the
C++ `nullptr` on the model-request path), how many times each stage ran,
the final contents of the cancellable-pass registry, and the LibFuzzer
options it set (when the ConfigureFuzzer stage was reached). -/
structure FuzzTrace where
  response : Option SolverSat
  sortCheckRuns : Nat
  buildProgramRuns : Nat
  compileCalls : Nat
  fuzzCalls : Nat
  registry : Finset PassKind
  maxLengthSet : Option Nat
  useCmpSet : Option Bool

namespace CXXFuzzingSolverImpl

/-- `CXXFuzzingSolverImpl::fuzz` (lines 135-251 of
`CXXFuzzingSolver.cpp`), stage by stage.  The model-request gate returns
`nullptr` (here `none`).  Then: sort check (which registers and
deregisters itself); `CHECK_CANCELLED` (observation 0); the
program-builder pass is inserted into the registry, run, and then —
exactly as the source does at line 174, despite its comment — *inserted
again* rather than erased; `CHECK_CANCELLED` (observation 1); the Clang
compile; on failure, UNKNOWN; `CHECK_CANCELLED` (observation 2); the
LibFuzzer options are set (`maxLength = (computeWidth() + 7) / 8`,
`useCmp` iff TRACE_CMP was among the sanitizer-coverage options); the
fuzzer runs, and TARGET_FOUND maps to SAT while UNKNOWN and CANCELLED map
to UNKNOWN. -/
def fuzz (g : TermGraph) (q : Query) (inp : FuzzInputs)
    (ba : BufferAssignment) (registry0 : Finset PassKind) : FuzzTrace :=
  if inp.produceModel then
    { response := none, sortCheckRuns := 0, buildProgramRuns := 0,
      compileCalls := 0, fuzzCalls := 0, registry := registry0,
      maxLengthSet := none, useCmpSet := none }
  else
    let sc := sortsAreSupported g inp.verbosity q registry0
    let registry1 := sc.2
    if !sc.1 then
      { response := some .unknown, sortCheckRuns := 1, buildProgramRuns := 0,
        compileCalls := 0, fuzzCalls := 0, registry := registry1,
        maxLengthSet := none, useCmpSet := none }
    else if flagAt inp.cancelTime 0 then
      { response := some .unknown, sortCheckRuns := 1, buildProgramRuns := 0,
        compileCalls := 0, fuzzCalls := 0, registry := registry1,
        maxLengthSet := none, useCmpSet := none }
    else
      let registry2 :=
        insert PassKind.programBuilder
          (insert PassKind.programBuilder registry1)
      if flagAt inp.cancelTime 1 then
        { response := some .unknown, sortCheckRuns := 1,
          buildProgramRuns := 1, compileCalls := 0, fuzzCalls := 0,
          registry := registry2, maxLengthSet := none, useCmpSet := none }
      else if !inp.compileSuccess then
        { response := some .unknown, sortCheckRuns := 1,
          buildProgramRuns := 1, compileCalls := 1, fuzzCalls := 0,
          registry := registry2, maxLengthSet := none, useCmpSet := none }
      else if flagAt inp.cancelTime 2 then
        { response := some .unknown, sortCheckRuns := 1,
          buildProgramRuns := 1, compileCalls := 1, fuzzCalls := 0,
          registry := registry2, maxLengthSet := none, useCmpSet := none }
      else
        let maxLen := (ba.computeWidth + 7) / 8
        match inp.fuzzOutcome with
        | .targetFound =>
          { response := some .sat, sortCheckRuns := 1, buildProgramRuns := 1,
            compileCalls := 1, fuzzCalls := 1, registry := registry2,
            maxLengthSet := some maxLen, useCmpSet := some inp.useCmpInOptions }
        | .unknown =>
          { response := some .unknown, sortCheckRuns := 1,
            buildProgramRuns := 1, compileCalls := 1, fuzzCalls := 1,
            registry := registry2, maxLengthSet := some maxLen,
            useCmpSet := some inp.useCmpInOptions }
        | .cancelled =>
          { response := some .unknown, sortCheckRuns := 1,
            buildProgramRuns := 1, compileCalls := 1, fuzzCalls := 1,
            registry := registry2, maxLengthSet := some maxLen,
            useCmpSet := some inp.useCmpInOptions }

end CXXFuzzingSolverImpl

/-- The implementation state `cancel()` works on: the atomic `cancelled`
flag and the cancellable-pass registry. -/
structure ImplState where
  cancelled : Bool
  registry : Finset PassKind

/-- What one `cancel()` call does and touches. -/
structure CancelEffects where
  state : ImplState
  passesCancelled : Finset PassKind
  cimCancelled : Bool
  limCancelled : Bool

namespace CXXFuzzingSolverImpl

/-- `CXXFuzzingSolverImpl::cancel` (lines 72-85): set the flag to true
(never to false), invoke `cancel()` on every pass currently in the
registry (under the lock), and forward cancellation to the Clang and
LibFuzzer invocation managers unconditionally. -/
def cancel (s : ImplState) : CancelEffects :=
  { state := { cancelled := true, registry := s.registry },
    passesCancelled := s.registry,
    cimCancelled := true, limCancelled := true }

end CXXFuzzingSolverImpl

/-! Concrete instances used to exercise the definitions. -/

/-- A one-node graph: node 0 is a boolean constant. -/
def gB : TermGraph where
  numNodes := 1
  sortOf := fun _ => .bool
  kids := fun _ => []
  kids_bound := fun _ _ => rfl

/-- The query asserting that single boolean constant. -/
def qB : Query where
  constraints := [0]

/-- A graph with structural sharing: boolean nodes 1 and 2 are
applications that both have node 0 as their only child. -/
def gShared : TermGraph where
  numNodes := 3
  sortOf := fun _ => .bool
  kids := fun n => if n = 1 then [0] else if n = 2 then [0] else []
  kids_bound := by
    intro n h
    show (if n = 1 then [0] else if n = 2 then [0] else []) = []
    rw [if_neg (by omega), if_neg (by omega)]

/-- The query whose two constraints share the sub-term 0. -/
def qShared : Query where
  constraints := [1, 2]

/-- A buffer assignment with free variables of 1, 7 and 16 bits. -/
def baEx : BufferAssignment where
  widths := [1, 7, 16]

/-- A baseline solve call: no model requested, quiet, never cancelled,
compilation succeeds, the fuzzer finds a satisfying input. -/
def inpBase : FuzzInputs where
  produceModel := false
  verbosity := 0
  cancelTime := none
  compileSuccess := true
  fuzzOutcome := .targetFound
  useCmpInOptions := false

/-- Per the spec's words: `ceil(totalBitWidth / 8)`, the mathematical
ceiling of the aggregate bit width over 8 (to compare against the code's
`(computeWidth() + 7) / 8`). -/
def specCeil8 (w : Nat) : Nat :=
  w / 8 + (if w % 8 = 0 then 0 else 1)

/-! Helper lemmas about reachability and the worklist loop. -/

theorem ReachFrom.mono {g : TermGraph} {s s' : List Nat} {t : Nat}
    (hs : ∀ x ∈ s, x ∈ s') (h : ReachFrom g s t) : ReachFrom g s' t := by
  induction h with
  | base hb => exact ReachFrom.base (hs _ hb)
  | step _ hk ih => exact ReachFrom.step ih hk

theorem ReachFrom.chain {g : TermGraph} {s s' : List Nat} {t : Nat}
    (hs : ∀ x ∈ s', ReachFrom g s x) (h : ReachFrom g s' t) :
    ReachFrom g s t := by
  induction h with
  | base hb => exact hs _ hb
  | step _ hk ih => exact ReachFrom.step ih hk

/-- A kids-closed set containing the start list contains everything
reachable from it. -/
theorem reach_subset_of_closed {g : TermGraph} {s : List Nat}
    {V : Finset Nat} (hbase : ∀ x ∈ s, x ∈ V)
    (hclosed : ∀ v ∈ V, ∀ k ∈ g.kids v, k ∈ V) :
    ∀ t, ReachFrom g s t → t ∈ V := by
  intro t h
  induction h with
  | base hb => exact hbase _ hb
  | step _ hk ih => exact hclosed _ ih _ hk

theorem sccLoop_nil (g : TermGraph) (p : SortKind → Bool)
    (vis : Finset Nat) : sccLoop g p [] vis = (true, [], vis) := by
  simp [sccLoop]

theorem sccLoop_skip (g : TermGraph) (p : SortKind → Bool)
    {node : Nat} (rest : List Nat) {vis : Finset Nat} (h : node ∈ vis) :
    sccLoop g p (node :: rest) vis = sccLoop g p rest vis := by
  rw [sccLoop]
  simp [h]

theorem sccLoop_visit (g : TermGraph) (p : SortKind → Bool)
    {node : Nat} (rest : List Nat) {vis : Finset Nat} (h : node ∉ vis)
    (hp : p (g.sortOf node) = true) :
    sccLoop g p (node :: rest) vis =
      ((sccLoop g p ((g.kids node).reverse ++ rest) (insert node vis)).1,
       node :: (sccLoop g p ((g.kids node).reverse ++ rest)
         (insert node vis)).2.1,
       (sccLoop g p ((g.kids node).reverse ++ rest) (insert node vis)).2.2) := by
  rw [sccLoop]
  simp [h, hp]

theorem sccLoop_fail (g : TermGraph) (p : SortKind → Bool)
    {node : Nat} (rest : List Nat) {vis : Finset Nat} (h : node ∉ vis)
    (hp : p (g.sortOf node) = false) :
    sccLoop g p (node :: rest) vis = (false, [node], vis) := by
  rw [sccLoop]
  simp [h, hp]

/-- Every node in the evaluation trace passed the predicate, provided the
loop reported that the predicate always held. -/
theorem sccLoop_held_evals (g : TermGraph) (p : SortKind → Bool) :
    ∀ (wl : List Nat) (vis : Finset Nat),
      (sccLoop g p wl vis).1 = true →
      ∀ e ∈ (sccLoop g p wl vis).2.1, p (g.sortOf e) = true := by
  intro wl vis
  induction wl, vis using sccLoop.induct g p with
  | case1 vis =>
      rw [sccLoop_nil]
      intro _ e he
      simp at he
  | case2 vis node rest hmem ih =>
      rw [sccLoop_skip g p rest hmem]
      exact ih
  | case3 vis node rest hmem hp ih =>
      rw [sccLoop_visit g p rest hmem hp]
      intro h e he
      rcases List.mem_cons.mp he with rfl | he2
      · exact hp
      · exact ih h e he2
  | case4 vis node rest hmem hp =>
      have hp2 : p (g.sortOf node) = false := by
        simpa [Bool.not_eq_true] using hp
      rw [sccLoop_fail g p rest hmem hp2]
      intro h
      simp at h

/-- When the loop reports success, its final visited set is the initial
one together with exactly the nodes in the evaluation trace. -/
theorem sccLoop_visited_eq (g : TermGraph) (p : SortKind → Bool) :
    ∀ (wl : List Nat) (vis : Finset Nat),
      (sccLoop g p wl vis).1 = true →
      (sccLoop g p wl vis).2.2 = vis ∪ (sccLoop g p wl vis).2.1.toFinset := by
  intro wl vis
  induction wl, vis using sccLoop.induct g p with
  | case1 vis =>
      rw [sccLoop_nil]
      intro _
      simp
  | case2 vis node rest hmem ih =>
      rw [sccLoop_skip g p rest hmem]
      exact ih
  | case3 vis node rest hmem hp ih =>
      rw [sccLoop_visit g p rest hmem hp]
      intro h
      have hrec := ih h
      rw [hrec]
      ext x
      simp [Finset.mem_insert, Finset.mem_union]
      try tauto
  | case4 vis node rest hmem hp =>
      have hp2 : p (g.sortOf node) = false := by
        simpa [Bool.not_eq_true] using hp
      rw [sccLoop_fail g p rest hmem hp2]
      intro h
      simp at h

/-- Coverage invariant.  When the loop reports success and the initial
visited set is kids-closed up to the worklist, the final visited set
contains every worklist node and every initially visited node, and is
closed under children. -/
theorem sccLoop_covers (g : TermGraph) (p : SortKind → Bool) :
    ∀ (wl : List Nat) (vis : Finset Nat),
      (∀ v ∈ vis, ∀ k ∈ g.kids v, k ∈ vis ∨ k ∈ wl) →
      (sccLoop g p wl vis).1 = true →
      (∀ t ∈ wl, t ∈ (sccLoop g p wl vis).2.2) ∧
      (∀ v ∈ vis, v ∈ (sccLoop g p wl vis).2.2) ∧
      (∀ v ∈ (sccLoop g p wl vis).2.2, ∀ k ∈ g.kids v,
        k ∈ (sccLoop g p wl vis).2.2) := by
  intro wl vis
  induction wl, vis using sccLoop.induct g p with
  | case1 vis =>
      rw [sccLoop_nil]
      intro hinv _
      refine ⟨by simp, fun v hv => hv, ?_⟩
      intro v hv k hk
      rcases hinv v hv k hk with h | h
      · exact h
      · simp at h
  | case2 vis node rest hmem ih =>
      rw [sccLoop_skip g p rest hmem]
      intro hinv h
      have hinv2 : ∀ v ∈ vis, ∀ k ∈ g.kids v, k ∈ vis ∨ k ∈ rest := by
        intro v hv k hk
        rcases hinv v hv k hk with h2 | h2
        · exact Or.inl h2
        · rcases List.mem_cons.mp h2 with rfl | h3
          · exact Or.inl hmem
          · exact Or.inr h3
      obtain ⟨h1, h2, h3⟩ := ih hinv2 h
      refine ⟨?_, h2, h3⟩
      intro t ht
      rcases List.mem_cons.mp ht with rfl | ht2
      · exact h2 t hmem
      · exact h1 t ht2
  | case3 vis node rest hmem hp ih =>
      rw [sccLoop_visit g p rest hmem hp]
      intro hinv h
      have hinv2 : ∀ v ∈ insert node vis, ∀ k ∈ g.kids v,
          k ∈ insert node vis ∨ k ∈ (g.kids node).reverse ++ rest := by
        intro v hv k hk
        rcases Finset.mem_insert.mp hv with rfl | hv2
        · exact Or.inr (List.mem_append.mpr
            (Or.inl (List.mem_reverse.mpr hk)))
        · rcases hinv v hv2 k hk with h2 | h2
          · exact Or.inl (Finset.mem_insert_of_mem h2)
          · rcases List.mem_cons.mp h2 with rfl | h3
            · exact Or.inl (Finset.mem_insert_self _ _)
            · exact Or.inr (List.mem_append.mpr (Or.inr h3))
      obtain ⟨h1, h2, h3⟩ := ih hinv2 h
      refine ⟨?_, ?_, h3⟩
      · intro t ht
        rcases List.mem_cons.mp ht with rfl | ht2
        · exact h2 t (Finset.mem_insert_self _ _)
        · exact h1 t (List.mem_append.mpr (Or.inr ht2))
      · intro v hv
        exact h2 v (Finset.mem_insert_of_mem hv)
  | case4 vis node rest hmem hp =>
      have hp2 : p (g.sortOf node) = false := by
        simpa [Bool.not_eq_true] using hp
      rw [sccLoop_fail g p rest hmem hp2]
      intro _ h
      simp at h

/-- Completeness.  When the loop reports failure, some node reachable
from the worklist fails the predicate. -/
theorem sccLoop_false_reach (g : TermGraph) (p : SortKind → Bool) :
    ∀ (wl : List Nat) (vis : Finset Nat),
      (sccLoop g p wl vis).1 = false →
      ∃ t, ReachFrom g wl t ∧ p (g.sortOf t) = false := by
  intro wl vis
  induction wl, vis using sccLoop.induct g p with
  | case1 vis =>
      rw [sccLoop_nil]
      intro h
      simp at h
  | case2 vis node rest hmem ih =>
      rw [sccLoop_skip g p rest hmem]
      intro h
      obtain ⟨t, hr, hpf⟩ := ih h
      exact ⟨t, hr.mono (fun x hx => List.mem_cons_of_mem _ hx), hpf⟩
  | case3 vis node rest hmem hp ih =>
      rw [sccLoop_visit g p rest hmem hp]
      intro h
      obtain ⟨t, hr, hpf⟩ := ih h
      refine ⟨t, ReachFrom.chain ?_ hr, hpf⟩
      intro x hx
      rcases List.mem_append.mp hx with hx2 | hx2
      · exact ReachFrom.step (ReachFrom.base (List.mem_cons_self _ _))
          (List.mem_reverse.mp hx2)
      · exact ReachFrom.base (List.mem_cons_of_mem _ hx2)
  | case4 vis node rest hmem hp =>
      have hp2 : p (g.sortOf node) = false := by
        simpa [Bool.not_eq_true] using hp
      rw [sccLoop_fail g p rest hmem hp2]
      intro _
      exact ⟨node, ReachFrom.base (List.mem_cons_self _ _), hp2⟩

/-- The evaluation trace never repeats a node and never touches an
already-visited node: the predicate is evaluated at most once per
distinct term. -/
theorem sccLoop_nodup (g : TermGraph) (p : SortKind → Bool) :
    ∀ (wl : List Nat) (vis : Finset Nat),
      (sccLoop g p wl vis).2.1.Nodup ∧
      ∀ e ∈ (sccLoop g p wl vis).2.1, e ∉ vis := by
  intro wl vis
  induction wl, vis using sccLoop.induct g p with
  | case1 vis =>
      rw [sccLoop_nil]
      simp
  | case2 vis node rest hmem ih =>
      rw [sccLoop_skip g p rest hmem]
      exact ih
  | case3 vis node rest hmem hp ih =>
      rw [sccLoop_visit g p rest hmem hp]
      obtain ⟨hnd, hdis⟩ := ih
      constructor
      · refine List.nodup_cons.mpr ⟨?_, hnd⟩
        intro hin
        exact hdis node hin (Finset.mem_insert_self _ _)
      · intro e he
        rcases List.mem_cons.mp he with rfl | he2
        · exact hmem
        · intro hev
          exact hdis e he2 (Finset.mem_insert_of_mem hev)
  | case4 vis node rest hmem hp =>
      have hp2 : p (g.sortOf node) = false := by
        simpa [Bool.not_eq_true] using hp
      rw [sccLoop_fail g p rest hmem hp2]
      constructor
      · simp
      · intro e he
        rcases List.mem_cons.mp he with rfl | he2
        · exact hmem
        · simp at he2

/-- Every node in the evaluation trace is reachable from the worklist. -/
theorem sccLoop_evals_reach (g : TermGraph) (p : SortKind → Bool) :
    ∀ (wl : List Nat) (vis : Finset Nat),
      ∀ e ∈ (sccLoop g p wl vis).2.1, ReachFrom g wl e := by
  intro wl vis
  induction wl, vis using sccLoop.induct g p with
  | case1 vis =>
      rw [sccLoop_nil]
      simp
  | case2 vis node rest hmem ih =>
      rw [sccLoop_skip g p rest hmem]
      intro e he
      exact (ih e he).mono (fun x hx => List.mem_cons_of_mem _ hx)
  | case3 vis node rest hmem hp ih =>
      rw [sccLoop_visit g p rest hmem hp]
      intro e he
      rcases List.mem_cons.mp he with rfl | he2
      · exact ReachFrom.base (List.mem_cons_self _ _)
      · refine ReachFrom.chain ?_ (ih e he2)
        intro x hx
        rcases List.mem_append.mp hx with hx2 | hx2
        · exact ReachFrom.step (ReachFrom.base (List.mem_cons_self _ _))
            (List.mem_reverse.mp hx2)
        · exact ReachFrom.base (List.mem_cons_of_mem _ hx2)
  | case4 vis node rest hmem hp =>
      have hp2 : p (g.sortOf node) = false := by
        simpa [Bool.not_eq_true] using hp
      rw [sccLoop_fail g p rest hmem hp2]
      intro e he
      rcases List.mem_cons.mp he with rfl | he2
      · exact ReachFrom.base (List.mem_cons_self _ _)
      · simp at he2

/-- Reachability from a list and from its reversal coincide. -/
theorem reachFrom_reverse (g : TermGraph) (s : List Nat) (t : Nat) :
    ReachFrom g s.reverse t ↔ ReachFrom g s t := by
  constructor
  · exact fun h => h.mono (fun x hx => List.mem_reverse.mp hx)
  · exact fun h => h.mono (fun x hx => List.mem_reverse.mpr hx)

/-! Claim theorems. -/

/-- C3: for every predicate `p` and query `q`, the conformance check's
outcome (`predicateHeld`) is true iff `p` holds for every distinct term
reachable from the query's top-level constraints; the predicate is
evaluated at most once per distinct term, and — when the check succeeds —
exactly once per distinct reachable term, even for a sub-term shared by
several parents.  The worklist traversal is a total function, so it
terminates on every (DAG-shaped) term graph. -/
theorem sortConformance_correct (g : TermGraph) (p : SortKind → Bool)
    (q : Query) :
    ((SortConformanceCheckPass.run g p q).predicateHeld = true ↔
      ∀ t, ReachFrom g q.constraints t → p (g.sortOf t) = true) ∧
    (∀ t, (SortConformanceCheckPass.run g p q).evals.count t ≤ 1) ∧
    ((SortConformanceCheckPass.run g p q).predicateHeld = true →
      ∀ t, ReachFrom g q.constraints t →
        (SortConformanceCheckPass.run g p q).evals.count t = 1) := by
  have hheld : (SortConformanceCheckPass.run g p q).predicateHeld =
      (sccLoop g p q.constraints.reverse ∅).1 := rfl
  have hevals : (SortConformanceCheckPass.run g p q).evals =
      (sccLoop g p q.constraints.reverse ∅).2.1 := rfl
  have hinv : ∀ v ∈ (∅ : Finset Nat), ∀ k ∈ g.kids v,
      k ∈ (∅ : Finset Nat) ∨ k ∈ q.constraints.reverse := by
    intro v hv
    simp at hv
  have hnodup := sccLoop_nodup g p q.constraints.reverse ∅
  have hmem_of_reach : (sccLoop g p q.constraints.reverse ∅).1 = true →
      ∀ t, ReachFrom g q.constraints t →
        t ∈ (sccLoop g p q.constraints.reverse ∅).2.1 := by
    intro h t hr
    obtain ⟨h1, _, h3⟩ := sccLoop_covers g p q.constraints.reverse ∅ hinv h
    have hin : t ∈ (sccLoop g p q.constraints.reverse ∅).2.2 :=
      reach_subset_of_closed h1 h3 t ((reachFrom_reverse g _ t).mpr hr)
    have hveq := sccLoop_visited_eq g p q.constraints.reverse ∅ h
    rw [hveq] at hin
    simpa using hin
  refine ⟨⟨?_, ?_⟩, ?_, ?_⟩
  · intro h t hr
    rw [hheld] at h
    exact sccLoop_held_evals g p q.constraints.reverse ∅ h t
      (hmem_of_reach h t hr)
  · intro hall
    rw [hheld]
    cases hb : (sccLoop g p q.constraints.reverse ∅).1 with
    | true => rfl
    | false =>
      obtain ⟨t, hr, hpf⟩ := sccLoop_false_reach g p q.constraints.reverse ∅ hb
      have := hall t ((reachFrom_reverse g _ t).mp hr)
      rw [this] at hpf
      exact absurd hpf (by simp)
  · intro t
    rw [hevals]
    exact List.nodup_iff_count_le_one.mp hnodup.1 t
  · intro h t hr
    rw [hheld] at h
    rw [hevals]
    exact List.count_eq_one_of_mem hnodup.1 (hmem_of_reach h t hr)

/-- Witness for C3 at a concrete query with sharing: in `gShared` the
boolean leaf 0 is a child of both constraints 1 and 2; the check holds
and evaluates the predicate on node 0 exactly once. -/
theorem sortConformance_correct_witness :
    (SortConformanceCheckPass.run gShared (fun _ => true) qShared).predicateHeld
        = true ∧
    (SortConformanceCheckPass.run gShared (fun _ => true) qShared).evals.count 0
        = 1 := by
  have hheld : (SortConformanceCheckPass.run gShared (fun _ => true)
      qShared).predicateHeld = true := by
    simp [SortConformanceCheckPass.run, sccLoop, gShared, qShared]
  have h1 : (1 : Nat) ∈ qShared.constraints := by simp [qShared]
  have h0 : (0 : Nat) ∈ gShared.kids 1 := by simp [gShared]
  have hreach : ReachFrom gShared qShared.constraints 0 :=
    ReachFrom.step (ReachFrom.base h1) h0
  exact ⟨hheld,
    (sortConformance_correct gShared (fun _ => true) qShared).2.2 hheld 0 hreach⟩

/-- C9: `SortConformanceCheckPass::run` leaves the query unchanged — the
constraint list and the term graph after the run are the ones given to
it. -/
theorem sortConformance_frame (g : TermGraph) (p : SortKind → Bool)
    (q : Query) :
    (SortConformanceCheckPass.run g p q).query = q ∧
    (SortConformanceCheckPass.run g p q).graph = g :=
  ⟨rfl, rfl⟩

/-- C10: `run` returns the boolean `false` for every query, whatever the
predicate's verdict; the outcome is exposed only through the
`predicateAlwaysHeld()` accessor reading the `predicateHeld` field, and
`sortsAreSupported` indeed consults that accessor, not the return
value. -/
theorem run_returns_false (g : TermGraph) (p : SortKind → Bool) (q : Query)
    (verbosity : Nat) (reg : Finset PassKind) :
    (SortConformanceCheckPass.run g p q).returnValue = false ∧
    SortConformanceCheckPass.predicateAlwaysHeld
        (SortConformanceCheckPass.run g p q) =
      (SortConformanceCheckPass.run g p q).predicateHeld ∧
    (CXXFuzzingSolverImpl.sortsAreSupported g verbosity q reg).1 =
      SortConformanceCheckPass.predicateAlwaysHeld
        (SortConformanceCheckPass.run g
          (fun s => (cxxSortPredicate verbosity s).1) q) :=
  ⟨rfl, rfl, rfl⟩

/-- C4 counterexample: at verbosity 0 the diagnostic stream is gated, so
a bit-vector of width 65 is rejected but *no* diagnostic naming the
width is emitted — the claim's unconditional "emits a diagnostic" fails
there. -/
theorem cxxSortPredicate_quiet_no_diag :
    (cxxSortPredicate 0 (SortKind.bitVector 65)).1 = false ∧
    (cxxSortPredicate 0 (SortKind.bitVector 65)).2 = [] :=
  ⟨rfl, rfl⟩

/-- C4 (amended): the default predicate accepts Boolean; accepts
BitVector(width) exactly when the width is at most 64 (so 64 passes and
65 fails); on a too-wide bit-vector it rejects and, at positive
verbosity, emits a diagnostic naming that width; on any other sort it
rejects and, at positive verbosity, emits a diagnostic naming the
sort. -/
theorem cxxSortPredicate_spec (v w : Nat) (printed : String) :
    (cxxSortPredicate v SortKind.bool).1 = true ∧
    ((cxxSortPredicate v (SortKind.bitVector w)).1 = true ↔ w ≤ 64) ∧
    (cxxSortPredicate v (SortKind.bitVector 64)).1 = true ∧
    (cxxSortPredicate v (SortKind.bitVector 65)).1 = false ∧
    (64 < w → 0 < v →
      (cxxSortPredicate v (SortKind.bitVector w)).2 =
        [Diag.bvWidthNotSupported w]) ∧
    (cxxSortPredicate v (SortKind.other printed)).1 = false ∧
    (0 < v →
      (cxxSortPredicate v (SortKind.other printed)).2 =
        [Diag.sortNotSupported printed]) := by
  refine ⟨rfl, ?_, ?_, ?_, ?_, ?_, ?_⟩
  · simp only [cxxSortPredicate]
    split <;> simp_all
  · rfl
  · rfl
  · intro hw hv
    simp [cxxSortPredicate, ifVerb, Nat.not_le.mpr hw, hv]
  · simp [cxxSortPredicate]
  · intro hv
    simp [cxxSortPredicate, ifVerb, hv]

/-- Witness for C4 at width 65 and verbosity 1. -/
theorem cxxSortPredicate_spec_witness :
    (64 < 65 ∧ 0 < 1) ∧
    (cxxSortPredicate 1 (SortKind.bitVector 65)).2 =
      [Diag.bvWidthNotSupported 65] ∧
    (cxxSortPredicate 1 (SortKind.other "Real")).2 =
      [Diag.sortNotSupported "Real"] :=
  ⟨by omega,
   (cxxSortPredicate_spec 1 65 "Real").2.2.2.2.1 (by omega) (by omega),
   (cxxSortPredicate_spec 1 65 "Real").2.2.2.2.2.2 (by omega)⟩

/-- C1: evaluating `fuzz` on a run that completes the program-builder
stage shows the registry bug: after the pass's run has ended the
program-builder pass is *still* a member of the cancellable-pass registry
(line 174 of `CXXFuzzingSolver.cpp` inserts it a second time where its
comment says it removes it), so a later `cancel()` invokes `cancel()` on
the already-completed pass.  The sort-check pass, by contrast, is
correctly erased. -/
theorem fuzz_registry_bug :
    (CXXFuzzingSolverImpl.fuzz gB qB inpBase baEx ∅).registry =
      {PassKind.programBuilder} ∧
    PassKind.sortCheck ∉
      (CXXFuzzingSolverImpl.fuzz gB qB inpBase baEx ∅).registry ∧
    PassKind.programBuilder ∈
      (CXXFuzzingSolverImpl.cancel
        { cancelled := false,
          registry :=
            (CXXFuzzingSolverImpl.fuzz gB qB inpBase baEx ∅).registry
        }).passesCancelled := by
  have hreg : (CXXFuzzingSolverImpl.fuzz gB qB inpBase baEx ∅).registry =
      {PassKind.programBuilder} := by
    simp [CXXFuzzingSolverImpl.fuzz, CXXFuzzingSolverImpl.sortsAreSupported,
      SortConformanceCheckPass.run, SortConformanceCheckPass.predicateAlwaysHeld,
      sccLoop, gB, qB, inpBase, cxxSortPredicate, flagAt]
  refine ⟨hreg, ?_, ?_⟩
  · rw [hreg]
    decide
  · show PassKind.programBuilder ∈
      (CXXFuzzingSolverImpl.fuzz gB qB inpBase baEx ∅).registry
    rw [hreg]
    decide

/-- C2 counterexample: a model-requesting solve call returns the null
response (the C++ `return nullptr;` at line 141), not an `UNKNOWN`
verdict, so the claim's "returns the UNKNOWN verdict" is false as
stated.  The zero-invocations part does hold. -/
theorem fuzz_produceModel_counterexample :
    (CXXFuzzingSolverImpl.fuzz gB qB { inpBase with produceModel := true }
      baEx ∅).response = none ∧
    (CXXFuzzingSolverImpl.fuzz gB qB { inpBase with produceModel := true }
      baEx ∅).response ≠ some SolverSat.unknown := by
  constructor
  · rfl
  · simp [CXXFuzzingSolverImpl.fuzz, inpBase]

/-- C2 (amended): for every query and solve call with
`produceModel = true`, `fuzz` returns the null response (no verdict)
immediately, and none of the later stages run: the sort check, the
program-builder pass, the Compilation Manager and the Fuzz Execution
Manager are each invoked zero times. -/
theorem fuzz_produceModel (g : TermGraph) (q : Query) (inp : FuzzInputs)
    (ba : BufferAssignment) (r0 : Finset PassKind)
    (h : inp.produceModel = true) :
    (CXXFuzzingSolverImpl.fuzz g q inp ba r0).response = none ∧
    (CXXFuzzingSolverImpl.fuzz g q inp ba r0).sortCheckRuns = 0 ∧
    (CXXFuzzingSolverImpl.fuzz g q inp ba r0).buildProgramRuns = 0 ∧
    (CXXFuzzingSolverImpl.fuzz g q inp ba r0).compileCalls = 0 ∧
    (CXXFuzzingSolverImpl.fuzz g q inp ba r0).fuzzCalls = 0 := by
  simp [CXXFuzzingSolverImpl.fuzz, h]

/-- Witness for C2 at the concrete boolean query. -/
theorem fuzz_produceModel_witness :
    ({ inpBase with produceModel := true } : FuzzInputs).produceModel = true ∧
    (CXXFuzzingSolverImpl.fuzz gB qB { inpBase with produceModel := true }
      baEx ∅).response = none :=
  ⟨rfl, (fuzz_produceModel gB qB { inpBase with produceModel := true }
    baEx ∅ rfl).1⟩

/-- C5 counterexample: with the cancellation flag set before the solve
call begins, the CheckSorts stage still executes (`sortCheckRuns = 1`):
there is no cancellation checkpoint between `Init` and `CheckSorts` (nor
between `ConfigureFuzzer` and `Fuzz`, nor after `Fuzz`), so the claim's
"checkpoint between every pair of consecutive states, returning UNKNOWN
at the next state boundary" is false as stated. -/
theorem fuzz_precancel_counterexample :
    (CXXFuzzingSolverImpl.fuzz gB qB { inpBase with cancelTime := some 0 }
      baEx ∅).sortCheckRuns = 1 ∧
    (CXXFuzzingSolverImpl.fuzz gB qB { inpBase with cancelTime := some 0 }
      baEx ∅).response = some SolverSat.unknown := by
  constructor <;>
    simp [CXXFuzzingSolverImpl.fuzz, CXXFuzzingSolverImpl.sortsAreSupported,
      SortConformanceCheckPass.run, SortConformanceCheckPass.predicateAlwaysHeld,
      sccLoop, gB, qB, inpBase, cxxSortPredicate, flagAt]

/-- C5 (amended): cancellation checkpoints exist after CheckSorts, after
BuildProgram and after Compile (not before CheckSorts, not between
ConfigureFuzzer and Fuzz, and not after Fuzz); the cancellation flag is
monotone — once set at an observation point it is set at all later ones —
and `cancel()` sets it to true, never to false; `cancel()` called before
the solve call begins (with no model requested) yields UNKNOWN with zero
invocations of the Compilation Manager or the Fuzz Execution Manager;
and a flag set by the BuildProgram→Compile (resp. Compile→ConfigureFuzzer)
checkpoint prevents any Compilation Manager (resp. Fuzz Execution
Manager) invocation. -/
theorem fuzz_cancellation (g : TermGraph) (q : Query) (inp : FuzzInputs)
    (ba : BufferAssignment) (r0 : Finset PassKind) (c : Option Nat)
    (t t' : Nat) (s : ImplState) :
    (t ≤ t' → flagAt c t = true → flagAt c t' = true) ∧
    (CXXFuzzingSolverImpl.cancel s).state.cancelled = true ∧
    (inp.produceModel = false → inp.cancelTime = some 0 →
      (CXXFuzzingSolverImpl.fuzz g q inp ba r0).response =
        some SolverSat.unknown ∧
      (CXXFuzzingSolverImpl.fuzz g q inp ba r0).compileCalls = 0 ∧
      (CXXFuzzingSolverImpl.fuzz g q inp ba r0).fuzzCalls = 0) ∧
    (flagAt inp.cancelTime 1 = true →
      (CXXFuzzingSolverImpl.fuzz g q inp ba r0).compileCalls = 0) ∧
    (flagAt inp.cancelTime 2 = true →
      (CXXFuzzingSolverImpl.fuzz g q inp ba r0).fuzzCalls = 0) := by
  refine ⟨?_, rfl, ?_, ?_, ?_⟩
  · intro hle
    cases c with
    | none => simp [flagAt]
    | some c0 =>
      simp only [flagAt, decide_eq_true_eq]
      omega
  · intro h1 h2
    simp only [CXXFuzzingSolverImpl.fuzz, h1, h2]
    have hf : flagAt (some 0) 0 = true := by simp [flagAt]
    repeat' split
    all_goals simp_all [flagAt]
  · intro h
    simp only [CXXFuzzingSolverImpl.fuzz]
    repeat' split
    all_goals simp_all
  · intro h
    simp only [CXXFuzzingSolverImpl.fuzz]
    repeat' split
    all_goals simp_all

/-- Witness for C5: cancel before solve on the concrete boolean query. -/
theorem fuzz_cancellation_witness :
    (CXXFuzzingSolverImpl.fuzz gB qB { inpBase with cancelTime := some 0 }
      baEx ∅).response = some SolverSat.unknown ∧
    (CXXFuzzingSolverImpl.fuzz gB qB { inpBase with cancelTime := some 0 }
      baEx ∅).compileCalls = 0 ∧
    (CXXFuzzingSolverImpl.fuzz gB qB { inpBase with cancelTime := some 0 }
      baEx ∅).fuzzCalls = 0 :=
  (fuzz_cancellation gB qB { inpBase with cancelTime := some 0 } baEx ∅
    none 0 0 { cancelled := false, registry := ∅ }).2.2.1 rfl rfl

/-- C6: on every solve call that reaches the Fuzz stage, outcome
TARGET_FOUND yields verdict SAT and outcomes UNKNOWN and CANCELLED yield
verdict UNKNOWN; and no solve call ever returns UNSAT. -/
theorem fuzz_verdict (g : TermGraph) (q : Query) (inp : FuzzInputs)
    (ba : BufferAssignment) (r0 : Finset PassKind) :
    ((CXXFuzzingSolverImpl.fuzz g q inp ba r0).fuzzCalls = 1 →
      ((inp.fuzzOutcome = LibFuzzerOutcome.targetFound ↔
        (CXXFuzzingSolverImpl.fuzz g q inp ba r0).response =
          some SolverSat.sat) ∧
       ((inp.fuzzOutcome = LibFuzzerOutcome.unknown ∨
         inp.fuzzOutcome = LibFuzzerOutcome.cancelled) →
        (CXXFuzzingSolverImpl.fuzz g q inp ba r0).response =
          some SolverSat.unknown))) ∧
    (CXXFuzzingSolverImpl.fuzz g q inp ba r0).response ≠
      some SolverSat.unsat := by
  constructor
  · intro h
    simp only [CXXFuzzingSolverImpl.fuzz] at h ⊢
    repeat' split
    all_goals simp_all
  · simp only [CXXFuzzingSolverImpl.fuzz]
    repeat' split
    all_goals simp_all

/-- Witness for C6: the baseline run reaches the Fuzz stage, its outcome
is TARGET_FOUND, and the verdict is SAT. -/
theorem fuzz_verdict_witness :
    (CXXFuzzingSolverImpl.fuzz gB qB inpBase baEx ∅).fuzzCalls = 1 ∧
    (CXXFuzzingSolverImpl.fuzz gB qB inpBase baEx ∅).response =
      some SolverSat.sat := by
  have h1 : (CXXFuzzingSolverImpl.fuzz gB qB inpBase baEx ∅).fuzzCalls = 1 := by
    simp [CXXFuzzingSolverImpl.fuzz, CXXFuzzingSolverImpl.sortsAreSupported,
      SortConformanceCheckPass.run, SortConformanceCheckPass.predicateAlwaysHeld,
      sccLoop, gB, qB, inpBase, cxxSortPredicate, flagAt]
  exact ⟨h1, ((fuzz_verdict gB qB inpBase baEx ∅).1 h1).1.mp rfl⟩

/-- C7: whenever the fuzzer is configured and run, its maximum input
length is `(computeWidth() + 7) / 8`, which equals the ceiling of the
aggregate free-variable bit width over 8; for widths 1, 7 and 16 the
aggregate is 24 bits and the length is 3 bytes. -/
theorem fuzz_maxLength (g : TermGraph) (q : Query) (inp : FuzzInputs)
    (ba : BufferAssignment) (r0 : Finset PassKind) :
    ((CXXFuzzingSolverImpl.fuzz g q inp ba r0).fuzzCalls = 1 →
      (CXXFuzzingSolverImpl.fuzz g q inp ba r0).maxLengthSet =
        some (specCeil8 ba.computeWidth)) ∧
    (∀ w : Nat, (w + 7) / 8 = specCeil8 w) ∧
    baEx.computeWidth = 24 ∧
    specCeil8 24 = 3 := by
  have hceil : ∀ w : Nat, (w + 7) / 8 = specCeil8 w := by
    intro w
    unfold specCeil8
    split <;> omega
  refine ⟨?_, hceil, rfl, rfl⟩
  intro h
  simp only [CXXFuzzingSolverImpl.fuzz] at h ⊢
  repeat' split
  all_goals simp_all [hceil, BufferAssignment.computeWidth]

/-- Witness for C7: the baseline run configures max input length 3 from
the 24-bit buffer assignment. -/
theorem fuzz_maxLength_witness :
    (CXXFuzzingSolverImpl.fuzz gB qB inpBase baEx ∅).fuzzCalls = 1 ∧
    (CXXFuzzingSolverImpl.fuzz gB qB inpBase baEx ∅).maxLengthSet =
      some 3 := by
  have h1 : (CXXFuzzingSolverImpl.fuzz gB qB inpBase baEx ∅).fuzzCalls = 1 := by
    simp [CXXFuzzingSolverImpl.fuzz, CXXFuzzingSolverImpl.sortsAreSupported,
      SortConformanceCheckPass.run, SortConformanceCheckPass.predicateAlwaysHeld,
      sccLoop, gB, qB, inpBase, cxxSortPredicate, flagAt]
  refine ⟨h1, ?_⟩
  rw [(fuzz_maxLength gB qB inpBase baEx ∅).1 h1]
  rfl

/-- C8: if the Compilation Manager reports failure the solve call
returns UNKNOWN without invoking the Fuzz Execution Manager, and no
stage is retried: the Compilation Manager and the Fuzz Execution Manager
are each invoked at most once per solve call. -/
theorem fuzz_compile_failure (g : TermGraph) (q : Query) (inp : FuzzInputs)
    (ba : BufferAssignment) (r0 : Finset PassKind) :
    (inp.compileSuccess = false →
      (CXXFuzzingSolverImpl.fuzz g q inp ba r0).fuzzCalls = 0 ∧
      ((CXXFuzzingSolverImpl.fuzz g q inp ba r0).compileCalls = 1 →
        (CXXFuzzingSolverImpl.fuzz g q inp ba r0).response =
          some SolverSat.unknown)) ∧
    (CXXFuzzingSolverImpl.fuzz g q inp ba r0).compileCalls ≤ 1 ∧
    (CXXFuzzingSolverImpl.fuzz g q inp ba r0).fuzzCalls ≤ 1 := by
  refine ⟨?_, ?_, ?_⟩
  · intro h
    simp only [CXXFuzzingSolverImpl.fuzz]
    repeat' split
    all_goals simp_all
  · simp only [CXXFuzzingSolverImpl.fuzz]
    repeat' split
    all_goals simp_all
  · simp only [CXXFuzzingSolverImpl.fuzz]
    repeat' split
    all_goals simp_all

/-- Witness for C8 at a run whose compilation fails. -/
theorem fuzz_compile_failure_witness :
    ({ inpBase with compileSuccess := false } : FuzzInputs).compileSuccess
        = false ∧
    (CXXFuzzingSolverImpl.fuzz gB qB { inpBase with compileSuccess := false }
      baEx ∅).fuzzCalls = 0 :=
  ⟨rfl, ((fuzz_compile_failure gB qB { inpBase with compileSuccess := false }
    baEx ∅).1 rfl).1⟩

end JFS
